import Mathlib

/-!
Telegram bot service (`web/service/tgbot.go`).

A shallow embedding of the package-level state of the bot service, of
`Tgbot.Start`, `Tgbot.Stop`, `Tgbot.IsRunning`, `Tgbot.GetHashStorage`,
`Tgbot.NewBot` and `Tgbot.OnReceive`, together with the parts of the Go
standard library (`strings.Split`, `strconv.Atoi`) and of the Telegram client
library that those functions call.
-/

set_option autoImplicit false

namespace Tgbot

/-! ## Go strings and errors -/

/-- A Go string is an immutable sequence of bytes. -/
abbrev GoString := List (Fin 256)

/-- The UTF-8 bytes of a literal, used to write down concrete Go strings. -/
def bytes (s : String) : GoString :=
  s.toUTF8.data.toList.map (fun b => b.val)

/-- The two sentinel errors of package `strconv`. -/
inductive NumErr where
  | ErrSyntax
  | ErrRange
  deriving DecidableEq, Repr

/-- A Go `error` value: a `*strconv.NumError` or an error produced by a
collaborator (setting service, localizer, Telegram API, operating system). -/
inductive Error where
  | num (func : String) (num : GoString) (err : NumErr)
  | ext (msg : String)
  deriving DecidableEq, Repr

/-- The word size of Go's `int` on the target platform. -/
inductive Arch where
  | bits32
  | bits64
  deriving DecidableEq, Repr

/-- The constant `strconv.IntSize`. -/
def intSize : Arch → Nat
  | .bits32 => 32
  | .bits64 => 64

/-! ## `strings.Split(s, ",")` -/

/-- The byte `','`. -/
def comma : Fin 256 := 44

/-- The call `strings.Split(s, ",")`: the substrings between the commas of `s`,
one more than there are commas. -/
def Split : GoString → List GoString
  | [] => [[]]
  | c :: cs =>
    if c = comma then [] :: Split cs
    else
      match Split cs with
      | [] => [[c]]
      | f :: fs => (c :: f) :: fs

/-! ## `strconv.Atoi` -/

/-- The digit loop of `ParseUint` for base 10 on `uint64` accumulators, with
`cutoff = maxUint64/10 + 1` and `maxVal = 1<<bitSize - 1`.  The result is the
value the loop returns and the sentinel of the `NumError`, when there is one. -/
def parseUintLoop (maxVal : Nat) : List (Fin 256) → Nat → Nat × Option NumErr
  | [], n => (n, none)
  | c :: cs, n =>
    if 48 ≤ c.val ∧ c.val ≤ 57 then
      let d := c.val - 48
      if n ≥ (2 ^ 64 - 1) / 10 + 1 then (maxVal, some .ErrRange)
      else
        let n10 := (n * 10) % 2 ^ 64
        let n1 := (n10 + d) % 2 ^ 64
        if n1 < n10 ∨ n1 > maxVal then (maxVal, some .ErrRange)
        else parseUintLoop maxVal cs n1
    else (0, some .ErrSyntax)

/-- The call `strconv.ParseUint(s, 10, 0)`: value and sentinel of the error. -/
def ParseUint (a : Arch) (s : GoString) : Nat × Option NumErr :=
  if s = [] then (0, some .ErrSyntax)
  else parseUintLoop (2 ^ intSize a - 1) s 0

/-- The call `strconv.ParseInt(s, 10, 0)`: value and sentinel of the error. -/
def ParseInt (a : Arch) (s0 : GoString) : Int × Option NumErr :=
  match s0 with
  | [] => (0, some .ErrSyntax)
  | c :: rest =>
    let neg := decide (c = 45)
    let s := if c = 43 ∨ c = 45 then rest else s0
    match ParseUint a s with
    | (_, some .ErrSyntax) => (0, some .ErrSyntax)
    | (un, _) =>
      let cutoff := 2 ^ (intSize a - 1)
      if neg = false ∧ un ≥ cutoff then ((cutoff : Int) - 1, some .ErrRange)
      else if neg = true ∧ un > cutoff then (-(cutoff : Int), some .ErrRange)
      else (if neg then -(un : Int) else (un : Int), none)

/-- The digit loop of the fast path of `Atoi`; `none` is the syntax error. -/
def atoiFastLoop : List (Fin 256) → Int → Option Int
  | [], n => some n
  | ch :: cs, n =>
    let ch := ch - 48
    if ch > 9 then none
    else atoiFastLoop cs (n * 10 + (ch.val : Int))

/-- The function `strconv.Atoi`: the fast path for strings short enough to fit
an `int`, `ParseInt(s, 10, 0)` otherwise.  Every error is a `*NumError` with
`Func = "Atoi"` and `Num` the whole input. -/
def Atoi (a : Arch) (s0 : GoString) : Int × Option Error :=
  let sLen := s0.length
  if (intSize a = 32 ∧ 0 < sLen ∧ sLen < 10) ∨ (intSize a = 64 ∧ 0 < sLen ∧ sLen < 19) then
    match s0 with
    | [] => (0, some (.num "Atoi" s0 .ErrSyntax))
    | c :: rest =>
      let s := if c = 45 ∨ c = 43 then rest else s0
      if (c = 45 ∨ c = 43) ∧ s.length < 1 then (0, some (.num "Atoi" s0 .ErrSyntax))
      else
        match atoiFastLoop s 0 with
        | none => (0, some (.num "Atoi" s0 .ErrSyntax))
        | some n => (if c = 45 then -n else n, none)
  else
    match ParseInt a s0 with
    | (i64, some err) => (i64, some (.num "Atoi" s0 err))
    | (i64, none) => (i64, none)

/-- The conversion `int64(id)` of a Go `int`. -/
def int64 (x : Int) : Int :=
  (x + 2 ^ 63) % 2 ^ 64 - 2 ^ 63

/-! ## Signed decimal numerals -/

/-- An ASCII decimal digit, `'0'` to `'9'`. -/
def isDigit (c : Fin 256) : Bool :=
  decide (48 ≤ c.val ∧ c.val ≤ 57)

/-- The number written by the digits `ds` after the digits already read gave `n`. -/
def decAcc : List (Fin 256) → Nat → Nat
  | [], n => n
  | c :: cs, n => decAcc cs (n * 10 + (c.val - 48))

/-- The natural number a digit string denotes in base ten. -/
def digitsValue (ds : List (Fin 256)) : Nat :=
  decAcc ds 0

/-- The digits of a numeral: what follows an optional leading `'+'` or `'-'`. -/
def unsignedPart : GoString → GoString
  | [] => []
  | c :: rest => if c = 43 ∨ c = 45 then rest else c :: rest

/-- A signed decimal integer: an optional sign, then one or more decimal digits
and nothing else. -/
def isSignedDecimal (s : GoString) : Bool :=
  !(unsignedPart s).isEmpty && (unsignedPart s).all isDigit

/-- The integer a signed decimal numeral denotes. -/
def signedValue (s : GoString) : Int :=
  match s with
  | [] => 0
  | c :: _ => if c = 45 then -(digitsValue (unsignedPart s) : Int) else (digitsValue (unsignedPart s) : Int)

/-- The values of Go's `int`: from `-2^(w-1)` to `2^(w-1) - 1`. -/
def inIntRange (a : Arch) (v : Int) : Prop :=
  -(2 : Int) ^ (intSize a - 1) ≤ v ∧ v < (2 : Int) ^ (intSize a - 1)

instance (a : Arch) (v : Int) : Decidable (inIntRange a v) := by
  unfold inIntRange; infer_instance

/-! ## Hash storage (package `global`) -/

/-- The duration `time.Minute`, in nanoseconds.  Instants and durations are
rational numbers of nanoseconds. -/
def Minute : ℚ := 60 * 1000000000

/-- The duration `time.Second`, in nanoseconds. -/
def Second : ℚ := 1000000000

/-- Modelled from the spec: an entry of the hash storage, whose source
(`x-ui/web/global`) is not at hand: the payload and the absolute deadline
`expiresAt = insertion time + TTL`. -/
structure Entry (V : Type) where
  value : V
  expiresAt : ℚ

/-- Modelled from the spec: the type `global.HashStorage`, a keyed store with a
TTL fixed at construction and at most one live entry per key. -/
structure HashStorage (V : Type) where
  ttl : ℚ
  entries : GoString → Option (Entry V)

/-- Modelled from the spec: the constructor `global.NewHashStorage(ttl)`, which
creates an empty store and rejects a non-positive TTL (`none`). -/
def NewHashStorage {V : Type} (ttl : ℚ) : Option (HashStorage V) :=
  if 0 < ttl then some { ttl := ttl, entries := fun _ => none } else none

/-- Modelled from the spec: the operation `Put(key, value)` at time `now`, which
inserts or replaces the entry for `key` with `expiresAt = now + ttl`. -/
def HashStorage.Put {V : Type} (h : HashStorage V) (now : ℚ) (key : GoString) (value : V) :
    HashStorage V :=
  { h with entries := fun k =>
      if k = key then some { value := value, expiresAt := now + h.ttl } else h.entries k }

/-- Modelled from the spec: the operation `Get(key)` at time `now`, which finds
the value of the entry of `key` while it has not expired and finds nothing for
an unknown or expired key.  An entry is expired from its deadline on
(`expiresAt <= now`, as in the sweep and in P2), so that a found value has
`now <= expiresAt`; `some v` stands for `(v, true)` and `none` for found
`false`. -/
def HashStorage.Get {V : Type} (h : HashStorage V) (now : ℚ) (key : GoString) : Option V :=
  match h.entries key with
  | some e => if now < e.expiresAt then some e.value else none
  | none => none

/-- Modelled from the spec: the store a `Get(key)` at time `now` leaves, with
the lazy cleanup of the looked-up entry when it is found expired. -/
def HashStorage.afterGet {V : Type} (h : HashStorage V) (now : ℚ) (key : GoString) :
    HashStorage V :=
  match h.entries key with
  | some e =>
    if now < e.expiresAt then h
    else { h with entries := fun k => if k = key then none else h.entries k }
  | none => h

/-- Modelled from the spec: the operation `Delete(key)`, which removes the entry
unconditionally. -/
def HashStorage.Delete {V : Type} (h : HashStorage V) (key : GoString) : HashStorage V :=
  { h with entries := fun k => if k = key then none else h.entries k }

/-- Modelled from the spec: the expiration sweep at time `now`, which removes
the entries with `expiresAt <= now`. -/
def HashStorage.Sweep {V : Type} (h : HashStorage V) (now : ℚ) : HashStorage V :=
  { h with entries := fun k =>
      match h.entries k with
      | some e => if e.expiresAt ≤ now then none else some e
      | none => none }

/-- An operation on the hash storage. -/
inductive StoreOp (V : Type) where
  | put (key : GoString) (value : V)
  | get (key : GoString)
  | delete (key : GoString)
  | sweep

/-- Whether the operation is a `Put` or a `Delete` on `key`. -/
def StoreOp.writes {V : Type} (key : GoString) : StoreOp V → Bool
  | .put k _ => decide (k = key)
  | .delete k => decide (k = key)
  | .get _ => false
  | .sweep => false

/-- The store after one operation carried out at time `now`. -/
def HashStorage.step {V : Type} (h : HashStorage V) (now : ℚ) : StoreOp V → HashStorage V
  | .put k v => h.Put now k v
  | .get k => h.afterGet now k
  | .delete k => h.Delete k
  | .sweep => h.Sweep now

/-- The store after a sequence of timed operations. -/
def HashStorage.run {V : Type} (h : HashStorage V) : List (ℚ × StoreOp V) → HashStorage V
  | [] => h
  | (now, op) :: ops => (h.step now op).run ops

/-! ## Telegram client library (`tgbotapi`) -/

/-- The type `tgbotapi.Chat`. -/
structure Chat where
  ID : Int
  deriving DecidableEq, Repr

/-- The type `tgbotapi.User`. -/
structure User where
  ID : Int
  UserName : String
  deriving DecidableEq, Repr

/-- The type `tgbotapi.Message`: sender, chat and text; `From` and `Chat` are
pointers and may be nil. -/
structure Message where
  MessageID : Int
  From : Option User
  Chat : Option Chat
  Text : String
  deriving DecidableEq, Repr

/-- The type `tgbotapi.Update`; `Message` is nil for the other kinds of update. -/
structure Update where
  UpdateID : Int
  Message : Option Message
  deriving DecidableEq, Repr

/-- The type `tgbotapi.WebAppInfo`. -/
structure WebAppInfo where
  URL : String
  deriving DecidableEq, Repr

/-- The type `tgbotapi.InlineKeyboardButton`: the label and the optional fields
that make the button a link, a callback or a web-app button. -/
structure InlineKeyboardButton where
  Text : String
  URL : Option String
  CallbackData : Option String
  WebApp : Option WebAppInfo
  deriving DecidableEq, Repr

/-- The type `tgbotapi.InlineKeyboardMarkup`: rows of buttons. -/
structure InlineKeyboardMarkup where
  InlineKeyboard : List (List InlineKeyboardButton)
  deriving DecidableEq, Repr

/-- The type `tgbotapi.MessageConfig`; `ReplyMarkup` is nil or an inline keyboard. -/
structure MessageConfig where
  ChatID : Int
  ReplyToMessageID : Int
  Text : String
  DisableWebPagePreview : Bool
  ReplyMarkup : Option InlineKeyboardMarkup
  deriving DecidableEq, Repr

/-- The constructor `tgbotapi.NewMessage(chatID, text)`. -/
def NewMessage (chatID : Int) (text : String) : MessageConfig :=
  { ChatID := chatID, ReplyToMessageID := 0, Text := text, DisableWebPagePreview := false,
    ReplyMarkup := none }

/-- The constructor `tgbotapi.NewInlineKeyboardButtonWebApp(text, webapp)`. -/
def NewInlineKeyboardButtonWebApp (text : String) (webapp : WebAppInfo) : InlineKeyboardButton :=
  { Text := text, URL := none, CallbackData := none, WebApp := some webapp }

/-- The constructor `tgbotapi.NewInlineKeyboardRow(buttons...)`. -/
def NewInlineKeyboardRow (buttons : List InlineKeyboardButton) : List InlineKeyboardButton :=
  [] ++ buttons

/-- The constructor `tgbotapi.NewInlineKeyboardMarkup(rows...)`. -/
def NewInlineKeyboardMarkup (rows : List (List InlineKeyboardButton)) : InlineKeyboardMarkup :=
  { InlineKeyboard := [] ++ rows }

/-- The type `tgbotapi.BotAPI`: the token and whether `shutdownChannel` has been
closed. -/
structure BotAPI where
  Token : GoString
  shutdownClosed : Bool
  deriving DecidableEq, Repr

/-- The constructor `tgbotapi.NewBotAPI(token)`: it calls `getMe` and returns
`(nil, err)` when that fails, a bot with an open shutdown channel otherwise. -/
def NewBotAPI (getMe : GoString → Option Error) (token : GoString) :
    Option BotAPI × Option Error :=
  match getMe token with
  | some e => (none, some e)
  | none => (some { Token := token, shutdownClosed := false }, none)

/-! ## The bot service -/

/-- The severity of a line written through package `logger`. -/
inductive Level where
  | Info
  | Warning
  | Error
  deriving DecidableEq, Repr

/-- A line written through package `logger`: the message and the error logged
with it. -/
structure LogEntry where
  level : Level
  msg : String
  err : Option Error
  deriving DecidableEq, Repr

/-- The package-level variables `bot`, `adminIds`, `isRunning`, `hostname` and
`hashStorage`, the hash stores allocated so far (`hashStorage` points into
`heap`), and the number of `go t.OnReceive()` statements executed. -/
structure World (V : Type) where
  bot : Option BotAPI
  adminIds : List Int
  isRunning : Bool
  hostname : GoString
  hashStorage : Option Nat
  heap : List (HashStorage V)
  receivers : Nat

/-- The state at process start: every package-level variable has its zero value. -/
def World.init {V : Type} : World V :=
  { bot := none, adminIds := [], isRunning := false, hostname := [], hashStorage := none,
    heap := [], receivers := 0 }

/-- What the collaborators of one `Start` call answer: `locale.InitLocalizer`,
`os.Hostname`, the three getters of the setting service (value and error), and
the `getMe` request behind `tgbotapi.NewBotAPI`. -/
structure Env where
  InitLocalizer : Option Error
  Hostname : GoString × Option Error
  GetTgBotToken : GoString × Option Error
  GetTgBotChatId : GoString × Option Error
  GetTgBotProxy : GoString × Option Error
  getMe : GoString → Option Error

/-- The method `Tgbot.GetHashStorage` (lines 46-48). -/
def GetHashStorage {V : Type} (w : World V) : Option Nat :=
  w.hashStorage

/-- The method `Tgbot.IsRunning` (lines 115-117). -/
def IsRunning {V : Type} (w : World V) : Bool :=
  w.isRunning

set_option linter.unusedVariables false in
/-- The method `Tgbot.NewBot` (lines 111-113). -/
def NewBot (getMe : GoString → Option Error) (token : GoString) (proxyUrl : GoString) :
    Option BotAPI × Option Error :=
  NewBotAPI getMe token

/-- The method `Tgbot.SetHostname` (lines 119-127). -/
def SetHostname {V : Type} (env : Env) (w : World V) : World V × List LogEntry :=
  match env.Hostname with
  | (_, some e) => ({ w with hostname := [] }, [⟨.Error, "get hostname error:", some e⟩])
  | (host, none) => ({ w with hostname := host }, [])

/-- The assignment `hashStorage = global.NewHashStorage(ttl)` (line 58): a new
store is allocated and the package variable points to it; a rejected TTL
leaves the nil pointer. -/
def World.newHashStorage {V : Type} (w : World V) (ttl : ℚ) : World V :=
  { w with
    heap := w.heap ++ (NewHashStorage ttl).toList
    hashStorage := (NewHashStorage ttl : Option (HashStorage V)).map (fun _ => w.heap.length) }

/-- The loop of lines 78-85 over the fields of the chat-ID setting: the ids
appended so far and the error of the first field `Atoi` rejects. -/
def parseAdminIds (a : Arch) : List GoString → List Int → List Int × Option Error
  | [], ids => (ids, none)
  | adminID :: rest, ids =>
    match Atoi a adminID with
    | (_, some err) => (ids, some err)
    | (id, none) => parseAdminIds a rest (ids ++ [int64 id])

/-- What a `Start` call leaves: the state, the returned error, the lines logged
and the source line of the `return` statement taken (54, 66, 73, 82, 98 or 108). -/
structure StartResult (V : Type) where
  world : World V
  err : Option Error
  log : List LogEntry
  line : Nat

/-- The method `Tgbot.Start` (lines 50-109). -/
def Start {V : Type} (a : Arch) (env : Env) (w : World V) : StartResult V :=
  match env.InitLocalizer with
  | some err => ⟨w, some err, [], 54⟩
  | none =>
    let w := w.newHashStorage (20 * Minute)
    let (w, log) := SetHostname env w
    let (tgBotToken, err) := env.GetTgBotToken
    if err ≠ none ∨ tgBotToken = [] then
      ⟨w, err, log ++ [⟨.Warning, "Failed to get Telegram bot token:", err⟩], 66⟩
    else
      let (tgBotID, err) := env.GetTgBotChatId
      if err ≠ none then
        ⟨w, err, log ++ [⟨.Warning, "Failed to get Telegram bot chat ID:", err⟩], 73⟩
      else
        match (if tgBotID ≠ [] then parseAdminIds a (Split tgBotID) w.adminIds
               else (w.adminIds, none)) with
        | (ids, some err) =>
          ⟨{ w with adminIds := ids }, some err,
            log ++ [⟨.Warning, "Failed to parse admin ID from Telegram bot chat ID:", some err⟩], 82⟩
        | (ids, none) =>
          let w := { w with adminIds := ids }
          let (tgBotProxy, err) := env.GetTgBotProxy
          let log := if err ≠ none then
            log ++ [⟨.Warning, "Failed to get Telegram bot proxy URL:", err⟩] else log
          let (b, err) := NewBot env.getMe tgBotToken tgBotProxy
          let w := { w with bot := b }
          if err ≠ none then
            ⟨w, err, log ++ [⟨.Error, "Failed to initialize Telegram bot API:", err⟩], 98⟩
          else if w.isRunning = false then
            ⟨{ w with receivers := w.receivers + 1, isRunning := true }, none,
              log ++ [⟨.Info, "Telegram bot receiver started", none⟩], 108⟩
          else ⟨w, none, log, 108⟩

/-- What a `Stop` call leaves: it returned, or it panicked in
`bot.StopReceivingUpdates()` with the state as it was. -/
inductive StopResult (V : Type) where
  | returned (w : World V) (log : List LogEntry)
  | panicked (w : World V)

/-- The method `Tgbot.Stop` (lines 129-134).  The library method reads
`bot.Debug` and closes `bot.shutdownChannel`, so it panics on a nil `bot` and
on a bot whose channel is already closed. -/
def Stop {V : Type} (w : World V) : StopResult V :=
  match w.bot with
  | none => .panicked w
  | some b =>
    if b.shutdownClosed then .panicked w
    else
      .returned { w with bot := some { b with shutdownClosed := true }, isRunning := false,
                         adminIds := [] }
        [⟨.Info, "Stop Telegram receiver ...", none⟩]

/-- The state a `Stop` call leaves behind, whether it returned or panicked. -/
def StopResult.world {V : Type} : StopResult V → World V
  | .returned w _ => w
  | .panicked w => w

/-- What the receive loop did: the messages passed to `bot.Send`, in order, the
number of updates taken from the channel, and whether the loop ended in a
panic. -/
structure ReceiveResult where
  sent : List MessageConfig
  handled : Nat
  panicked : Bool
  deriving DecidableEq, Repr

/-- The message built at lines 144-149 for the chat id `chatID`. -/
def reply (chatID : Int) : MessageConfig :=
  { NewMessage chatID "Hi" with
    ReplyMarkup := some (NewInlineKeyboardMarkup [
      NewInlineKeyboardRow [
        NewInlineKeyboardButtonWebApp "My WebApp"
          { URL := "https://t9wzx5sr-3000.euw.devtunnels.ms/" }]]) }

/-- The loop of `Tgbot.OnReceive` (lines 142-155) over the updates the channel
delivers; `send sent msg` is the error `bot.Send(msg)` returns after the
messages `sent`.  Reading `update.Message.Chat.ID` panics on a nil chat, and
`log.Panic` ends the loop after a failed `Send`. -/
def OnReceive.loop (send : List MessageConfig → MessageConfig → Option Error) :
    List Update → List MessageConfig → Nat → ReceiveResult
  | [], sent, n => ⟨sent, n, false⟩
  | update :: updates, sent, n =>
    match update.Message with
    | none => OnReceive.loop send updates sent (n + 1)
    | some m =>
      match m.Chat with
      | none => ⟨sent, n + 1, true⟩
      | some chat =>
        let msg := reply chat.ID
        match send sent msg with
        | some _ => ⟨sent ++ [msg], n + 1, true⟩
        | none => OnReceive.loop send updates (sent ++ [msg]) (n + 1)

/-- The method `Tgbot.OnReceive` (lines 136-156) on the updates that
`bot.GetUpdatesChan` delivers before the channel is closed. -/
def OnReceive (send : List MessageConfig → MessageConfig → Option Error)
    (updates : List Update) : ReceiveResult :=
  OnReceive.loop send updates [] 0

/-- A `Put` at time `now` on the store the pointer `p` refers to. -/
def World.storePut {V : Type} (w : World V) (p : Nat) (now : ℚ) (key : GoString) (value : V) :
    World V :=
  match w.heap[p]? with
  | some h => { w with heap := w.heap.set p (h.Put now key value) }
  | none => w

/-- A `Get` at time `now` on the store the pointer `p` refers to. -/
def World.storeGet {V : Type} (w : World V) (p : Nat) (now : ℚ) (key : GoString) : Option V :=
  match w.heap[p]? with
  | some h => h.Get now key
  | none => none

/-- The message the loop body passes to `bot.Send` for an update: the reply to
the chat of its message, and nothing when the update has no message or the
message no chat. -/
def replyOf (u : Update) : Option MessageConfig :=
  match u.Message with
  | none => none
  | some m =>
    match m.Chat with
    | none => none
    | some chat => some (reply chat.ID)

/-- The fields `fs` written one after the other with a comma between them. -/
def joinComma : List GoString → GoString
  | [] => []
  | [f] => f
  | f :: g :: fs => f ++ comma :: joinComma (g :: fs)

/-- A call of the bot service by its owner. -/
inductive Call where
  | start (env : Env)
  | stop

/-- The state after one call. -/
def call {V : Type} (a : Arch) (w : World V) : Call → World V
  | .start env => (Start a env w).world
  | .stop => (Stop w).world

/-- The state after a sequence of calls. -/
def calls {V : Type} (a : Arch) (w : World V) (cs : List Call) : World V :=
  cs.foldl (call a) w

/-! ## Concrete inputs -/

/-- Collaborators that all succeed: token `"t"`, chat ids `"1,-2,+3"`, no proxy. -/
def envOk : Env :=
  { InitLocalizer := none
    Hostname := (bytes "host", none)
    GetTgBotToken := (bytes "t", none)
    GetTgBotChatId := (bytes "1,-2,+3", none)
    GetTgBotProxy := ([], none)
    getMe := fun _ => none }

/-- As `envOk`, but the Telegram API cannot be reached. -/
def envUnreachable : Env :=
  { envOk with getMe := fun _ => some (.ext "dial tcp: i/o timeout") }

/-- As `envOk`, but no bot token is configured: the setting service answers
the empty string with a nil error. -/
def envNoToken : Env :=
  { envOk with GetTgBotToken := ([], none) }

/-- As `envOk`, but the only chat id is `2^63`. -/
def envBigId : Env :=
  { envOk with GetTgBotChatId := (bytes "9223372036854775808", none) }

/-- As `envOk`, but the chat ids are `"1, 2"`, with a blank after the comma. -/
def envSpacedId : Env :=
  { envOk with GetTgBotChatId := (bytes "1, 2", none) }

/-! ## Lemmas on `strconv.Atoi` -/

set_option maxRecDepth 100000 in
theorem fast_digit_iff (c : Fin 256) : ¬ (c - 48 > 9) ↔ (48 ≤ c.val ∧ c.val ≤ 57) := by
  revert c; decide

set_option maxRecDepth 100000 in
theorem fast_digit_val (c : Fin 256) (h : 48 ≤ c.val ∧ c.val ≤ 57) : (c - 48).val = c.val - 48 := by
  revert c; decide

theorem le_decAcc (ds : List (Fin 256)) (n : Nat) : n ≤ decAcc ds n := by
  induction ds generalizing n with
  | nil => simp [decAcc]
  | cons c cs ih =>
    have := ih (n * 10 + (c.val - 48))
    simp only [decAcc]; omega

theorem decAcc_lt (ds : List (Fin 256)) (n : Nat) (h : ds.all isDigit = true) :
    decAcc ds n < (n + 1) * 10 ^ ds.length := by
  induction ds generalizing n with
  | nil => simp [decAcc]
  | cons c cs ih =>
    simp only [List.all_cons, Bool.and_eq_true, isDigit, decide_eq_true_eq] at h
    have h1 := ih (n * 10 + (c.val - 48)) h.2
    simp only [decAcc, List.length_cons, pow_succ]
    have : (n * 10 + (c.val - 48) + 1) ≤ (n + 1) * 10 := by omega
    calc decAcc cs (n * 10 + (c.val - 48)) < (n * 10 + (c.val - 48) + 1) * 10 ^ cs.length := h1
      _ ≤ ((n + 1) * 10) * 10 ^ cs.length := Nat.mul_le_mul_right _ this
      _ = (n + 1) * (10 ^ cs.length * 10) := by ring

theorem atoiFastLoop_eq (ds : List (Fin 256)) (m : Nat) :
    atoiFastLoop ds (m : Int) =
      if ds.all isDigit = true then some ((decAcc ds m : Nat) : Int) else none := by
  induction ds generalizing m with
  | nil => simp [atoiFastLoop, decAcc]
  | cons c cs ih =>
    simp only [atoiFastLoop, List.all_cons, decAcc]
    by_cases hc : 48 ≤ c.val ∧ c.val ≤ 57
    · have h1 : ¬ (c - 48 > 9) := (fast_digit_iff c).2 hc
      have h2 := fast_digit_val c hc
      have h3 : isDigit c = true := by simp [isDigit, hc]
      rw [if_neg h1, h2, h3]
      have := ih (m * 10 + (c.val - 48))
      push_cast at this
      simp only [Bool.true_and]
      rw [← this]
    · have h1 : (c - 48 > 9) := by
        by_contra h; exact hc ((fast_digit_iff c).1 h)
      have h3 : isDigit c = false := by simp [isDigit]; omega
      rw [if_pos h1, h3]; simp

/-- What the digit loop of `ParseUint` returns on a string of digits. -/
theorem parseUintLoop_digits (maxVal : Nat) (hmax : maxVal < 2 ^ 64) (ds : List (Fin 256))
    (n : Nat) (hn : n ≤ maxVal) (h : ds.all isDigit = true) :
    parseUintLoop maxVal ds n =
      if decAcc ds n ≤ maxVal then (decAcc ds n, none) else (maxVal, some .ErrRange) := by
  induction ds generalizing n with
  | nil => simp [parseUintLoop, decAcc, hn]
  | cons c cs ih =>
    simp only [List.all_cons, Bool.and_eq_true, isDigit, decide_eq_true_eq] at h
    obtain ⟨hc, hcs⟩ := h
    simp only [parseUintLoop, decAcc, if_pos hc]
    have hge := le_decAcc cs (n * 10 + (c.val - 48))
    by_cases hcut : n ≥ (2 ^ 64 - 1) / 10 + 1
    · rw [if_pos hcut, if_neg]
      norm_num at hcut hmax ⊢
      omega
    · rw [if_neg hcut]
      norm_num at hcut hmax
      have h10 : (n * 10) % 2 ^ 64 = n * 10 := by
        apply Nat.mod_eq_of_lt; norm_num; omega
      simp only [h10]
      by_cases hov : n * 10 + (c.val - 48) < 2 ^ 64
      · have h11 : (n * 10 + (c.val - 48)) % 2 ^ 64 = n * 10 + (c.val - 48) :=
          Nat.mod_eq_of_lt hov
        simp only [h11]
        by_cases hm : n * 10 + (c.val - 48) > maxVal
        · rw [if_pos (Or.inr hm), if_neg]; omega
        · rw [if_neg (by omega)]
          exact ih _ (by omega) hcs
      · have h11 : (n * 10 + (c.val - 48)) % 2 ^ 64 = n * 10 + (c.val - 48) - 2 ^ 64 := by
          rw [Nat.mod_eq_sub_mod (by omega)]
          apply Nat.mod_eq_of_lt
          norm_num at hov ⊢; omega
        simp only [h11]
        rw [if_pos, if_neg]
        · norm_num at hov ⊢; omega
        · left; norm_num at hov ⊢; omega

/-- The digit loop of `ParseUint` reports an error on anything but digits, and
returns `maxVal` with every range error. -/
theorem parseUintLoop_err (maxVal : Nat) (ds : List (Fin 256)) (n : Nat) :
    (ds.all isDigit = false → (parseUintLoop maxVal ds n).2 ≠ none) ∧
    ((parseUintLoop maxVal ds n).2 = some .ErrRange → (parseUintLoop maxVal ds n).1 = maxVal) := by
  induction ds generalizing n with
  | nil => simp [parseUintLoop]
  | cons c cs ih =>
    simp only [parseUintLoop]
    by_cases hc : 48 ≤ c.val ∧ c.val ≤ 57
    · have h3 : isDigit c = true := by simp [isDigit, hc]
      simp only [if_pos hc, List.all_cons, h3, Bool.true_and]
      split
      · simp
      · split
        · simp
        · exact ih _
    · simp [if_neg hc]

theorem two_pow_intSize (a : Arch) :
    (2 ^ intSize a = 2 ^ 32 ∧ 2 ^ (intSize a - 1) = 2 ^ 31) ∨
    (2 ^ intSize a = 2 ^ 64 ∧ 2 ^ (intSize a - 1) = 2 ^ 63) := by
  cases a
  · left; exact ⟨rfl, rfl⟩
  · right; exact ⟨rfl, rfl⟩

/-- The three facts about `ParseUint(s, 10, 0)` that `ParseInt` relies on. -/
theorem ParseUint_spec (a : Arch) (ds : GoString) :
    (ds ≠ [] → ds.all isDigit = true → digitsValue ds ≤ 2 ^ intSize a - 1 →
      ParseUint a ds = (digitsValue ds, none)) ∧
    (ds ≠ [] → ds.all isDigit = true → ¬ digitsValue ds ≤ 2 ^ intSize a - 1 →
      ParseUint a ds = (2 ^ intSize a - 1, some .ErrRange)) ∧
    ((ds = [] ∨ ds.all isDigit = false) → (ParseUint a ds).2 ≠ none) ∧
    ((ParseUint a ds).2 = some .ErrRange → (ParseUint a ds).1 = 2 ^ intSize a - 1) := by
  have hmax : 2 ^ intSize a - 1 < 2 ^ 64 := by
    rcases two_pow_intSize a with h | h <;> rw [h.1] <;> norm_num
  refine ⟨?_, ?_, ?_, ?_⟩
  · intro hne hd hv
    unfold ParseUint
    rw [if_neg hne, parseUintLoop_digits _ hmax ds 0 (Nat.zero_le _) hd]
    unfold digitsValue at hv
    rw [if_pos hv]; rfl
  · intro hne hd hv
    unfold ParseUint
    rw [if_neg hne, parseUintLoop_digits _ hmax ds 0 (Nat.zero_le _) hd]
    unfold digitsValue at hv
    rw [if_neg hv]
  · intro h
    unfold ParseUint
    by_cases hne : ds = []
    · rw [if_pos hne]; simp
    · rw [if_neg hne]
      rcases h with h | h
      · exact absurd h hne
      · exact (parseUintLoop_err _ ds 0).1 h
  · unfold ParseUint
    by_cases hne : ds = []
    · rw [if_pos hne]; simp
    · rw [if_neg hne]
      exact (parseUintLoop_err _ ds 0).2

theorem isSignedDecimal_iff (s : GoString) :
    isSignedDecimal s = true ↔ unsignedPart s ≠ [] ∧ (unsignedPart s).all isDigit = true := by
  unfold isSignedDecimal
  cases unsignedPart s <;> simp

/-- The call `ParseInt(s, 10, 0)` succeeds exactly on the signed decimal
numerals whose value is an `int`, and then returns that value. -/
theorem ParseInt_spec (a : Arch) (s : GoString) :
    (isSignedDecimal s = true ∧ inIntRange a (signedValue s) →
      ParseInt a s = (signedValue s, none)) ∧
    (¬ (isSignedDecimal s = true ∧ inIntRange a (signedValue s)) →
      (ParseInt a s).2 ≠ none) := by
  cases s with
  | nil => simp [ParseInt, isSignedDecimal, unsignedPart]
  | cons c rest =>
    obtain ⟨hok, hrange, herr, hmaxv⟩ := ParseUint_spec a (unsignedPart (c :: rest))
    have hds : (if c = 43 ∨ c = 45 then rest else c :: rest) = unsignedPart (c :: rest) := rfl
    have hsv : signedValue (c :: rest) =
        if c = 45 then -(digitsValue (unsignedPart (c :: rest)) : Int)
        else (digitsValue (unsignedPart (c :: rest)) : Int) := rfl
    simp only [ParseInt, hds, isSignedDecimal_iff, inIntRange, hsv]
    generalize unsignedPart (c :: rest) = ds at *
    generalize hv : digitsValue ds = v at *
    by_cases hgood : ds ≠ [] ∧ ds.all isDigit = true
    · obtain ⟨hne, hd⟩ := hgood
      by_cases hle : v ≤ 2 ^ intSize a - 1
      · rw [hok hne hd hle]
        cases a <;> simp only [intSize] at hle ⊢ <;> by_cases hc : c = 45 <;>
          simp [hc, hne, hd] <;> norm_num at hle ⊢ <;> (try split_ifs) <;> (try simp) <;> omega
      · rw [hrange hne hd hle]
        cases a <;> simp only [intSize] at hle ⊢ <;> by_cases hc : c = 45 <;>
          simp [hc, hne, hd] <;> norm_num at hle ⊢ <;> omega
    · have hbad : ds = [] ∨ ds.all isDigit = false := by
        by_cases hne : ds = []
        · exact Or.inl hne
        · right
          cases hall : ds.all isDigit
          · rfl
          · exact absurd ⟨hne, hall⟩ hgood
      have h2 := herr hbad
      refine ⟨fun h => absurd h.1 hgood, fun _ => ?_⟩
      rcases hp : ParseUint a ds with ⟨un, e⟩
      rw [hp] at h2 hmaxv
      cases e with
      | none => simp at h2
      | some k =>
        cases k with
        | ErrSyntax => simp
        | ErrRange =>
          have hun : un = 2 ^ intSize a - 1 := by simpa using hmaxv
          subst hun
          cases a <;> simp only [intSize] <;> by_cases hc : c = 45 <;> simp [hc]

theorem unsignedPart_length_le (s : GoString) : (unsignedPart s).length ≤ s.length := by
  cases s with
  | nil => simp [unsignedPart]
  | cons c rest =>
    simp only [unsignedPart]
    split <;> simp

/-- A numeral short enough for the fast path of `Atoi` denotes an `int`. -/
theorem short_inIntRange (a : Arch) (s : GoString)
    (hlen : (intSize a = 32 ∧ s.length < 10) ∨ (intSize a = 64 ∧ s.length < 19))
    (hd : (unsignedPart s).all isDigit = true) : inIntRange a (signedValue s) := by
  have hlt := decAcc_lt (unsignedPart s) 0 hd
  have hl := unsignedPart_length_le s
  have hval : ∀ k : Nat, s.length < k + 1 → digitsValue (unsignedPart s) < 10 ^ k := by
    intro k hk
    have : 10 ^ (unsignedPart s).length ≤ 10 ^ k :=
      Nat.pow_le_pow_right (by norm_num) (by omega)
    unfold digitsValue
    omega
  have hsv : signedValue s = digitsValue (unsignedPart s) ∨
      signedValue s = -(digitsValue (unsignedPart s) : Int) := by
    cases s with
    | nil => left; rfl
    | cons c rest =>
      simp only [signedValue]
      split
      · right; rfl
      · left; rfl
  unfold inIntRange
  rcases hlen with ⟨ha, hs⟩ | ⟨ha, hs⟩
  · have h9 := hval 9 hs
    rw [ha]
    norm_num at h9 ⊢
    rcases hsv with h | h <;> rw [h] <;> omega
  · have h18 := hval 18 hs
    rw [ha]
    norm_num at h18 ⊢
    rcases hsv with h | h <;> rw [h] <;> omega

/-- The function `Atoi` returns the value of every signed decimal numeral that
denotes an `int`, with a nil error. -/
theorem Atoi_ok (a : Arch) (s : GoString)
    (h : isSignedDecimal s = true ∧ inIntRange a (signedValue s)) :
    Atoi a s = (signedValue s, none) := by
  unfold Atoi
  simp only
  split_ifs with hfast
  · cases s with
    | nil => simp [isSignedDecimal, unsignedPart] at h
    | cons c rest =>
      have hds : (if c = 45 ∨ c = 43 then rest else c :: rest) = unsignedPart (c :: rest) := by
        simp only [unsignedPart, or_comm]
      obtain ⟨hne, hd⟩ := (isSignedDecimal_iff _).1 h.1
      simp only [hds]
      have hlen : ¬ (unsignedPart (c :: rest)).length < 1 := by
        cases hu : unsignedPart (c :: rest) with
        | nil => exact absurd hu hne
        | cons _ _ => simp
      rw [if_neg (fun hh => hlen hh.2)]
      have hloop := atoiFastLoop_eq (unsignedPart (c :: rest)) 0
      rw [if_pos hd] at hloop
      simp only [Nat.cast_zero] at hloop
      rw [hloop]
      simp only [signedValue, digitsValue]
  · have := (ParseInt_spec a s).1 h
    rw [this]

/-- The function `Atoi` returns a non-nil error on every other string. -/
theorem Atoi_err (a : Arch) (s : GoString)
    (h : ¬ (isSignedDecimal s = true ∧ inIntRange a (signedValue s))) :
    (Atoi a s).2 ≠ none := by
  unfold Atoi
  simp only
  split_ifs with hfast
  · cases s with
    | nil => simp
    | cons c rest =>
      have hds : (if c = 45 ∨ c = 43 then rest else c :: rest) = unsignedPart (c :: rest) := by
        simp only [unsignedPart, or_comm]
      simp only [hds]
      have hloop := atoiFastLoop_eq (unsignedPart (c :: rest)) 0
      simp only [Nat.cast_zero] at hloop
      by_cases hsign : (c = 45 ∨ c = 43) ∧ (unsignedPart (c :: rest)).length < 1
      · rw [if_pos hsign]; simp
      · rw [if_neg hsign, hloop]
        by_cases hd : (unsignedPart (c :: rest)).all isDigit = true
        · exfalso
          apply h
          have hne : unsignedPart (c :: rest) ≠ [] := by
            intro hu
            apply hsign
            refine ⟨?_, by rw [hu]; simp⟩
            by_cases hs : c = 43 ∨ c = 45
            · exact Or.symm hs
            · simp only [unsignedPart, if_neg hs] at hu
              cases hu
          refine ⟨(isSignedDecimal_iff _).2 ⟨hne, hd⟩, ?_⟩
          apply short_inIntRange a _ _ hd
          rcases hfast with ⟨h1, _, h3⟩ | ⟨h1, _, h3⟩
          · exact Or.inl ⟨h1, h3⟩
          · exact Or.inr ⟨h1, h3⟩
        · rw [if_neg hd]; simp
  · have := (ParseInt_spec a s).2 h
    rcases hp : ParseInt a s with ⟨v, e⟩
    rw [hp] at this
    cases e with
    | none => simp at this
    | some k => simp

/-- The error of `Atoi` is nil exactly on the signed decimal numerals that
denote an `int`. -/
theorem Atoi_isOk_iff (a : Arch) (s : GoString) :
    (Atoi a s).2 = none ↔ (isSignedDecimal s = true ∧ inIntRange a (signedValue s)) := by
  constructor
  · intro h
    by_contra hn
    exact Atoi_err a s hn h
  · intro h
    rw [Atoi_ok a s h]

/-! ## Admin ids -/

theorem int64_of_inIntRange (a : Arch) (v : Int) (h : inIntRange a v) : int64 v = v := by
  unfold int64
  unfold inIntRange at h
  cases a <;> simp only [intSize] at h <;> norm_num at h ⊢ <;> omega

/-- The loop over the fields finishes without error only when every field is a
signed decimal numeral that denotes an `int`, and then appends their values. -/
theorem parseAdminIds_ok (a : Arch) (fs : List GoString) (ids ids' : List Int)
    (h : parseAdminIds a fs ids = (ids', none)) :
    ids' = ids ++ fs.map signedValue ∧
    ∀ f ∈ fs, isSignedDecimal f = true ∧ inIntRange a (signedValue f) := by
  induction fs generalizing ids with
  | nil =>
    simp only [parseAdminIds, Prod.mk.injEq, and_true] at h
    simp [h]
  | cons f rest ih =>
    by_cases hf : isSignedDecimal f = true ∧ inIntRange a (signedValue f)
    · simp only [parseAdminIds, Atoi_ok a f hf, int64_of_inIntRange a _ hf.2] at h
      obtain ⟨h1, h2⟩ := ih _ h
      refine ⟨by simp [h1], ?_⟩
      intro g hg
      rcases List.mem_cons.1 hg with rfl | hg
      · exact hf
      · exact h2 g hg
    · have he := Atoi_err a f hf
      rcases hp : Atoi a f with ⟨v, e⟩
      rw [hp] at he
      cases e with
      | none => exact absurd rfl he
      | some e => simp [parseAdminIds, hp] at h

/-- The loop over the fields stops with an error exactly when some field is
not a signed decimal numeral that denotes an `int`. -/
theorem parseAdminIds_err_iff (a : Arch) (fs : List GoString) (ids : List Int) :
    (parseAdminIds a fs ids).2 ≠ none ↔
      ∃ f ∈ fs, ¬ (isSignedDecimal f = true ∧ inIntRange a (signedValue f)) := by
  induction fs generalizing ids with
  | nil => simp [parseAdminIds]
  | cons f rest ih =>
    by_cases hf : isSignedDecimal f = true ∧ inIntRange a (signedValue f)
    · simp [parseAdminIds, Atoi_ok a f hf, ih, hf]
    · have he := Atoi_err a f hf
      rcases hp : Atoi a f with ⟨v, e⟩
      rw [hp] at he
      cases e with
      | none => exact absurd rfl he
      | some e =>
        simp only [parseAdminIds, hp, ne_eq, reduceCtorEq, not_false_eq_true, List.mem_cons,
          exists_eq_or_imp, hf, true_or]

/-- The ids and the error the admin-ID step of `Start` (lines 76-86) yields. -/
theorem Start_adminIds_step {V : Type} (a : Arch) (env : Env) (w : World V)
    (hloc : env.InitLocalizer = none)
    (htok : env.GetTgBotToken.2 = none ∧ env.GetTgBotToken.1 ≠ [])
    (hid : env.GetTgBotChatId.2 = none) :
    (∀ ids e, (if env.GetTgBotChatId.1 ≠ [] then
          parseAdminIds a (Split env.GetTgBotChatId.1) w.adminIds
        else (w.adminIds, none)) = (ids, some e) →
      (Start a env w).line = 82 ∧ (Start a env w).err = some e ∧
      (Start a env w).world.adminIds = ids ∧
      (Start a env w).world.bot = w.bot ∧
      (Start a env w).world.isRunning = w.isRunning ∧
      (Start a env w).world.receivers = w.receivers) ∧
    (∀ ids, (if env.GetTgBotChatId.1 ≠ [] then
          parseAdminIds a (Split env.GetTgBotChatId.1) w.adminIds
        else (w.adminIds, none)) = (ids, none) →
      82 < (Start a env w).line ∧ (Start a env w).world.adminIds = ids) := by
  obtain ⟨InitLocalizer, Hostname, ⟨tok, terr⟩, ⟨cid, cerr⟩, ⟨px, perr⟩, getMe⟩ := env
  simp only at hloc htok hid
  subst hloc hid
  obtain ⟨h1, h2⟩ := htok
  subst h1
  have hw : ∀ x : World V × List LogEntry, x = SetHostname
      ⟨none, Hostname, (tok, none), (cid, none), (px, perr), getMe⟩
      (w.newHashStorage (20 * Minute)) →
      x.1.adminIds = w.adminIds ∧ x.1.bot = w.bot ∧ x.1.isRunning = w.isRunning ∧
        x.1.receivers = w.receivers := by
    intro x hx
    subst hx
    unfold SetHostname
    simp only
    split <;> exact ⟨rfl, rfl, rfl, rfl⟩
  constructor
  · intro ids e h
    simp only [Start, ne_eq, not_true_eq_false, h2, or_self, if_false]
    obtain ⟨hw1, hw2, hw3, hw4⟩ := hw _ rfl
    simp only [hw1, h]
    exact ⟨trivial, trivial, trivial, hw2, hw3, hw4⟩
  · intro ids h
    simp only [Start, ne_eq, not_true_eq_false, h2, or_self, if_false]
    obtain ⟨hw1, hw2, hw3, hw4⟩ := hw _ rfl
    simp only [hw1, h]
    split_ifs <;> simp

/-- A `Start` that leaves after line 82 has passed every earlier step. -/
theorem Start_past_adminIds {V : Type} (a : Arch) (env : Env) (w : World V)
    (h : 82 < (Start a env w).line) :
    env.InitLocalizer = none ∧ (env.GetTgBotToken.2 = none ∧ env.GetTgBotToken.1 ≠ []) ∧
    env.GetTgBotChatId.2 = none ∧
    ∃ ids, (if env.GetTgBotChatId.1 ≠ [] then
          parseAdminIds a (Split env.GetTgBotChatId.1) w.adminIds
        else (w.adminIds, none)) = (ids, none) := by
  obtain ⟨InitLocalizer, Hostname, ⟨tok, terr⟩, ⟨cid, cerr⟩, ⟨px, perr⟩, getMe⟩ := env
  cases InitLocalizer with
  | some e => simp [Start] at h
  | none =>
    by_cases ht : terr ≠ none ∨ tok = []
    · simp [Start, ht] at h
    · by_cases hc : cerr ≠ none
      · simp [Start, ht, hc] at h
      · have ht' : terr = none ∧ tok ≠ [] := by
          constructor
          · by_contra hh; exact ht (Or.inl hh)
          · intro hh; exact ht (Or.inr hh)
        have hc' : cerr = none := by
          by_contra hh; exact hc hh
        refine ⟨rfl, ht', hc', ?_⟩
        simp only
        rcases hp : (if cid ≠ [] then parseAdminIds a (Split cid) w.adminIds
          else (w.adminIds, none)) with ⟨ids, e⟩
        cases e with
        | none => exact ⟨ids, rfl⟩
        | some e =>
          have := ((Start_adminIds_step a
            ⟨none, Hostname, (tok, terr), (cid, cerr), (px, perr), getMe⟩ w rfl ht' hc').1
            ids e hp).1
          omega

/-! ### The fields of `strings.Split(s, ",")` -/

theorem Split_ne_nil (s : GoString) : Split s ≠ [] := by
  cases s with
  | nil => simp [Split]
  | cons c cs =>
    simp only [Split]
    split_ifs
    · simp
    · split <;> simp

/-- The fields of `Split` joined with commas give the string back. -/
theorem joinComma_Split (s : GoString) : joinComma (Split s) = s := by
  induction s with
  | nil => rfl
  | cons c cs ih =>
    simp only [Split]
    by_cases hc : c = comma
    · rw [if_pos hc]
      cases hs : Split cs with
      | nil => exact absurd hs (Split_ne_nil cs)
      | cons g gs =>
        rw [hs] at ih
        simp only [joinComma, List.nil_append, ih, hc]
    · rw [if_neg hc]
      cases hs : Split cs with
      | nil => exact absurd hs (Split_ne_nil cs)
      | cons f fs =>
        rw [hs] at ih
        cases fs with
        | nil =>
          simp only [joinComma] at ih ⊢
          rw [ih]
        | cons g gs =>
          simp only [joinComma, List.cons_append] at ih ⊢
          rw [ih]

/-- No field of `Split` contains a comma. -/
theorem Split_no_comma (s : GoString) : ∀ f ∈ Split s, comma ∉ f := by
  induction s with
  | nil => simp [Split]
  | cons c cs ih =>
    simp only [Split]
    by_cases hc : c = comma
    · rw [if_pos hc]
      intro f hf
      rcases List.mem_cons.1 hf with rfl | hf
      · simp
      · exact ih f hf
    · rw [if_neg hc]
      cases hs : Split cs with
      | nil => exact absurd hs (Split_ne_nil cs)
      | cons g gs =>
        rw [hs] at ih
        intro f hf
        rcases List.mem_cons.1 hf with rfl | hf
        · intro hmem
          rcases List.mem_cons.1 hmem with h | h
          · exact hc h.symm
          · exact ih g (List.mem_cons_self _ _) h
        · exact ih f (List.mem_cons_of_mem _ hf)

theorem Split_field (f : GoString) (hf : comma ∉ f) : Split f = [f] := by
  induction f with
  | nil => rfl
  | cons c cs ih =>
    have hc : c ≠ comma := fun h => hf (h ▸ List.mem_cons_self _ _)
    have hcs : comma ∉ cs := fun h => hf (List.mem_cons_of_mem _ h)
    simp only [Split, if_neg hc, ih hcs]

theorem Split_field_comma (f t : GoString) (hf : comma ∉ f) :
    Split (f ++ comma :: t) = f :: Split t := by
  induction f with
  | nil => simp [Split]
  | cons c cs ih =>
    have hc : c ≠ comma := fun h => hf (h ▸ List.mem_cons_self _ _)
    have hcs : comma ∉ cs := fun h => hf (List.mem_cons_of_mem _ h)
    have h := ih hcs
    show Split (c :: (cs ++ comma :: t)) = (c :: cs) :: Split t
    simp only [Split, if_neg hc, h]

/-- The call `Split` returns the fields of a string written as comma-free
fields with a comma between them. -/
theorem Split_joinComma (fs : List GoString) (hne : fs ≠ [])
    (hfs : ∀ f ∈ fs, comma ∉ f) : Split (joinComma fs) = fs := by
  induction fs with
  | nil => exact absurd rfl hne
  | cons f rest ih =>
    cases rest with
    | nil => exact Split_field f (hfs f (List.mem_cons_self _ _))
    | cons g gs =>
      simp only [joinComma]
      rw [Split_field_comma f _ (hfs f (List.mem_cons_self _ _))]
      rw [ih (by simp) (fun x hx => hfs x (List.mem_cons_of_mem _ hx))]

/-- C2: a `Start` that gets past the admin-ID step (it leaves through a
`return` after line 82) leaves `adminIds` equal to its previous value followed
by the integers the comma-separated fields of the chat-ID setting denote, in
field order, one per field, and unchanged when the setting is empty; every
field is then a signed decimal numeral.  From a state left by `Stop`, where
`adminIds` is empty, `adminIds` is exactly that list.  The fields `Split`
returns are the comma-free strings that, written with a comma between them,
make up the setting: for a non-empty setting written as the fields `fs` with
commas between them, `adminIds` is followed by the values of `fs`. -/
theorem Start_appends_adminIds {V : Type} (a : Arch) (env : Env) (w : World V)
    (hpast : 82 < (Start a env w).line) :
    (Start a env w).world.adminIds =
      w.adminIds ++ (if env.GetTgBotChatId.1 = [] then []
        else (Split env.GetTgBotChatId.1).map signedValue) ∧
    (env.GetTgBotChatId.1 ≠ [] →
      ∀ f ∈ Split env.GetTgBotChatId.1, isSignedDecimal f = true) ∧
    (∀ (w0 : World V) (log : List LogEntry), Stop w0 = .returned w log →
      (Start a env w).world.adminIds =
        (if env.GetTgBotChatId.1 = [] then []
          else (Split env.GetTgBotChatId.1).map signedValue)) ∧
    (Split env.GetTgBotChatId.1 ≠ [] ∧
      (∀ f ∈ Split env.GetTgBotChatId.1, comma ∉ f) ∧
      joinComma (Split env.GetTgBotChatId.1) = env.GetTgBotChatId.1) ∧
    (∀ fs : List GoString, fs ≠ [] → (∀ f ∈ fs, comma ∉ f) →
      env.GetTgBotChatId.1 = joinComma fs →
      Split env.GetTgBotChatId.1 = fs ∧
      (env.GetTgBotChatId.1 ≠ [] →
        (∀ f ∈ fs, isSignedDecimal f = true ∧ inIntRange a (signedValue f)) ∧
        (Start a env w).world.adminIds = w.adminIds ++ fs.map signedValue)) ∧
    (env.GetTgBotChatId.1 = [] → (Start a env w).world.adminIds = w.adminIds) := by
  obtain ⟨hloc, htok, hid, ids, hids⟩ := Start_past_adminIds a env w hpast
  have hres := ((Start_adminIds_step a env w hloc htok hid).2 ids hids).2
  have hmain : (Start a env w).world.adminIds =
      w.adminIds ++ (if env.GetTgBotChatId.1 = [] then []
        else (Split env.GetTgBotChatId.1).map signedValue) ∧
      (env.GetTgBotChatId.1 ≠ [] →
        ∀ f ∈ Split env.GetTgBotChatId.1,
          isSignedDecimal f = true ∧ inIntRange a (signedValue f)) := by
    rw [hres]
    by_cases hs : env.GetTgBotChatId.1 = []
    · simp only [hs, ne_eq, not_true_eq_false, if_false, Prod.mk.injEq, and_true] at hids
      simp [hs, hids]
    · simp only [ne_eq, hs, not_false_eq_true, if_true] at hids
      obtain ⟨h1, h2⟩ := parseAdminIds_ok a _ _ _ hids
      simp only [hs, if_false]
      exact ⟨h1, fun _ f hf => h2 f hf⟩
  refine ⟨hmain.1, fun hs f hf => (hmain.2 hs f hf).1, ?_,
    ⟨Split_ne_nil _, Split_no_comma _, joinComma_Split _⟩, ?_, ?_⟩
  · intro w0 log hstop
    have hempty : w.adminIds = [] := by
      unfold Stop at hstop
      split at hstop
      · cases hstop
      · split at hstop
        · cases hstop
        · cases hstop; rfl
    rw [hmain.1, hempty, List.nil_append]
  · intro fs hne hfs hjoin
    have hsplit : Split env.GetTgBotChatId.1 = fs := by
      rw [hjoin]; exact Split_joinComma fs hne hfs
    refine ⟨hsplit, fun hs => ?_⟩
    have h2 := hmain.2 hs
    rw [hsplit] at h2
    refine ⟨h2, ?_⟩
    rw [hmain.1, if_neg hs, hsplit]
  · intro hs
    rw [hmain.1, if_pos hs, List.append_nil]

/-- C2 at the chat-ID setting `"1,-2,+3"` and the state of process start: the
admin ids are 1, -2 and 3. -/
theorem Start_appends_adminIds_witness :
    82 < (Start .bits64 envOk (World.init : World String)).line ∧
    envOk.GetTgBotChatId.1 = joinComma [bytes "1", bytes "-2", bytes "+3"] ∧
    Split envOk.GetTgBotChatId.1 = [bytes "1", bytes "-2", bytes "+3"] ∧
    (Start .bits64 envOk (World.init : World String)).world.adminIds = [1, -2, 3] :=
  ⟨by decide, by decide,
    ((Start_appends_adminIds .bits64 envOk (World.init : World String) (by decide)).2.2.2.2.1
      [bytes "1", bytes "-2", bytes "+3"] (by decide) (by decide) (by decide)).1,
    ((((Start_appends_adminIds .bits64 envOk (World.init : World String)
      (by decide)).2.2.2.2.1
      [bytes "1", bytes "-2", bytes "+3"] (by decide) (by decide) (by decide)).2
      (by decide)).2).trans (by decide)⟩

/-- C3, as stated, fails at the chat-ID setting `"9223372036854775808"`: its
only field is a signed decimal integer, and `Start` returns the range error of
`Atoi` from line 82. -/
theorem Start_rejects_big_adminId :
    ((Start .bits64 envBigId (World.init : World String)).line = 82 ∧
      (Start .bits64 envBigId (World.init : World String)).err =
        some (.num "Atoi" (bytes "9223372036854775808") .ErrRange)) ∧
    envBigId.GetTgBotChatId.1 ≠ [] ∧
    ∀ f ∈ Split envBigId.GetTgBotChatId.1, isSignedDecimal f = true := by
  decide

/-- C3, amended: when the localizer initialises, the token is non-empty and
the chat-ID setting is read without error, `Start` returns a non-nil error
from the admin-ID step (line 82) if and only if the setting is non-empty and
one of its comma-separated fields is not a signed decimal integer within the
range of `int`; an empty field and `" 2"` are not signed decimal integers.
Whenever `Start` returns from line 82 the error is non-nil, `bot` is
unchanged, and the receive loop is not started. -/
theorem Start_adminId_error_iff {V : Type} (a : Arch) (env : Env) (w : World V)
    (hloc : env.InitLocalizer = none)
    (htok : env.GetTgBotToken.2 = none ∧ env.GetTgBotToken.1 ≠ [])
    (hid : env.GetTgBotChatId.2 = none) :
    (((Start a env w).line = 82 ∧ (Start a env w).err ≠ none) ↔
      (env.GetTgBotChatId.1 ≠ [] ∧
        ∃ f ∈ Split env.GetTgBotChatId.1,
          ¬ (isSignedDecimal f = true ∧ inIntRange a (signedValue f)))) ∧
    (isSignedDecimal [] = false ∧ isSignedDecimal (bytes " 2") = false) ∧
    ((Start a env w).line = 82 →
      (Start a env w).err ≠ none ∧
      (Start a env w).world.bot = w.bot ∧
      (Start a env w).world.isRunning = w.isRunning ∧
      (Start a env w).world.receivers = w.receivers) := by
  obtain ⟨hE, hO⟩ := Start_adminIds_step a env w hloc htok hid
  rcases hp : (if env.GetTgBotChatId.1 ≠ [] then
      parseAdminIds a (Split env.GetTgBotChatId.1) w.adminIds
    else (w.adminIds, none)) with ⟨ids, e⟩
  have hiff : e ≠ none ↔ (env.GetTgBotChatId.1 ≠ [] ∧
        ∃ f ∈ Split env.GetTgBotChatId.1,
          ¬ (isSignedDecimal f = true ∧ inIntRange a (signedValue f))) := by
    by_cases hs : env.GetTgBotChatId.1 = []
    · simp only [hs, ne_eq, not_true_eq_false, if_false, Prod.mk.injEq] at hp
      simp [hs, hp.2.symm]
    · simp only [ne_eq, hs, not_false_eq_true, if_true] at hp
      have := parseAdminIds_err_iff a (Split env.GetTgBotChatId.1) w.adminIds
      rw [hp] at this
      simp only [ne_eq, hs, not_false_eq_true, true_and]
      exact this
  cases e with
  | some e =>
    obtain ⟨h1, h2, _, h4, h5, h6⟩ := hE ids e hp
    refine ⟨?_, by decide, ?_⟩
    · rw [← hiff]
      simp [h1, h2]
    · intro _
      exact ⟨by simp [h2], h4, h5, h6⟩
  | none =>
    obtain ⟨h1, _⟩ := hO ids hp
    refine ⟨?_, by decide, ?_⟩
    · rw [← hiff]
      constructor
      · intro h; omega
      · intro h; exact absurd rfl h
    · intro h; omega

/-- C3, amended, at the chat-ID setting `"1, 2"`. -/
theorem Start_adminId_error_iff_witness :
    envSpacedId.InitLocalizer = none ∧
    (envSpacedId.GetTgBotToken.2 = none ∧ envSpacedId.GetTgBotToken.1 ≠ []) ∧
    envSpacedId.GetTgBotChatId.2 = none ∧
    (((Start .bits64 envSpacedId (World.init : World String)).line = 82 ∧
        (Start .bits64 envSpacedId (World.init : World String)).err ≠ none) ↔
      (envSpacedId.GetTgBotChatId.1 ≠ [] ∧
        ∃ f ∈ Split envSpacedId.GetTgBotChatId.1,
          ¬ (isSignedDecimal f = true ∧ inIntRange .bits64 (signedValue f)))) :=
  ⟨rfl, by decide, rfl,
    (Start_adminId_error_iff .bits64 envSpacedId World.init rfl (by decide) rfl).1⟩

/-! ## Hash storage -/

theorem NewHashStorage_twenty {V : Type} :
    (NewHashStorage (20 * Minute) : Option (HashStorage V)) =
      some { ttl := 20 * Minute, entries := fun _ => none } := by
  unfold NewHashStorage
  rw [if_pos (by norm_num [Minute])]

theorem run_ttl {V : Type} (h : HashStorage V) (ops : List (ℚ × StoreOp V)) :
    (h.run ops).ttl = h.ttl := by
  induction ops generalizing h with
  | nil => rfl
  | cons op ops ih =>
    obtain ⟨now, op⟩ := op
    simp only [HashStorage.run]
    rw [ih]
    cases op with
    | put k v => rfl
    | get k =>
      simp only [HashStorage.step, HashStorage.afterGet]
      split
      · split <;> rfl
      · rfl
    | delete k => rfl
    | sweep => rfl

/-- An operation that is no `Put` or `Delete` on `key` keeps the entry of `key`
or removes it; it keeps it when it takes place before the deadline. -/
theorem step_entry {V : Type} (h : HashStorage V) (now : ℚ) (op : StoreOp V) (key : GoString)
    (e : Entry V) (hw : op.writes key = false) (he : h.entries key = some e) :
    ((h.step now op).entries key = some e ∨ (h.step now op).entries key = none) ∧
    (now < e.expiresAt → (h.step now op).entries key = some e) := by
  cases op with
  | put k v =>
    have hk : key ≠ k := by
      intro hh; simp [StoreOp.writes, hh] at hw
    simp [HashStorage.step, HashStorage.Put, hk, he]
  | delete k =>
    have hk : key ≠ k := by
      intro hh; simp [StoreOp.writes, hh] at hw
    simp [HashStorage.step, HashStorage.Delete, hk, he]
  | get k =>
    simp only [HashStorage.step, HashStorage.afterGet]
    by_cases hk : key = k
    · subst hk
      simp only [he]
      by_cases hn : now < e.expiresAt
      · simp [hn, he]
      · simp [hn]
    · cases hk2 : h.entries k with
      | none => simp [he]
      | some e2 =>
        simp only
        split_ifs <;> simp [he, hk]
  | sweep =>
    simp only [HashStorage.step, HashStorage.Sweep, he]
    by_cases hn : e.expiresAt ≤ now
    · simp only [hn, if_true, or_true, true_and]
      intro h1
      exact absurd hn (not_le.2 h1)
    · simp [hn]

theorem step_entry_none {V : Type} (h : HashStorage V) (now : ℚ) (op : StoreOp V)
    (key : GoString) (hw : op.writes key = false) (he : h.entries key = none) :
    (h.step now op).entries key = none := by
  cases op with
  | put k v =>
    have hk : key ≠ k := by
      intro hh; simp [StoreOp.writes, hh] at hw
    simp [HashStorage.step, HashStorage.Put, hk, he]
  | delete k => simp [HashStorage.step, HashStorage.Delete, he]
  | get k =>
    simp only [HashStorage.step, HashStorage.afterGet]
    split
    · split_ifs
      · exact he
      · simp [he]
    · exact he
  | sweep => simp [HashStorage.step, HashStorage.Sweep, he]

theorem run_entry_none {V : Type} (h : HashStorage V) (ops : List (ℚ × StoreOp V))
    (key : GoString) (hw : ∀ op ∈ ops, op.2.writes key = false) (he : h.entries key = none) :
    (h.run ops).entries key = none := by
  induction ops generalizing h with
  | nil => exact he
  | cons op ops ih =>
    obtain ⟨now, op⟩ := op
    simp only [HashStorage.run]
    apply ih
    · intro o ho; exact hw o (List.mem_cons_of_mem _ ho)
    · exact step_entry_none h now op key (hw (now, op) (List.mem_cons_self _ _)) he

/-- After operations none of which is a `Put` or `Delete` on `key`, the entry of
`key` is the old one or gone; it is the old one when every operation took
place before the deadline. -/
theorem run_entry {V : Type} (h : HashStorage V) (ops : List (ℚ × StoreOp V)) (key : GoString)
    (e : Entry V) (hw : ∀ op ∈ ops, op.2.writes key = false) (he : h.entries key = some e) :
    ((h.run ops).entries key = some e ∨ (h.run ops).entries key = none) ∧
    ((∀ op ∈ ops, op.1 < e.expiresAt) → (h.run ops).entries key = some e) := by
  induction ops generalizing h with
  | nil => exact ⟨Or.inl he, fun _ => he⟩
  | cons op ops ih =>
    obtain ⟨now, op⟩ := op
    have hw1 := hw (now, op) (List.mem_cons_self _ _)
    have hw2 : ∀ o ∈ ops, o.2.writes key = false :=
      fun o ho => hw o (List.mem_cons_of_mem _ ho)
    obtain ⟨h1, h2⟩ := step_entry h now op key e hw1 he
    simp only [HashStorage.run]
    constructor
    · rcases h1 with h1 | h1
      · exact (ih _ hw2 h1).1
      · exact Or.inr (run_entry_none _ ops key hw2 h1)
    · intro ht
      have ht1 := ht (now, op) (List.mem_cons_self _ _)
      have hstep := h2 ht1
      exact (ih _ hw2 hstep).2 (fun o ho => ht o (List.mem_cons_of_mem _ ho))

/-- What `Get(key)` returns at time `t1` after a `Put(key, value)` at time `t0`
followed by operations that are no `Put` or `Delete` on `key`. -/
theorem get_after_put {V : Type} (h : HashStorage V) (ops : List (ℚ × StoreOp V))
    (key : GoString) (value : V) (t0 t1 : ℚ)
    (hw : ∀ op ∈ ops, op.2.writes key = false) :
    (t0 + h.ttl ≤ t1 → ((h.Put t0 key value).run ops).Get t1 key = none) ∧
    (t1 < t0 + h.ttl → (∀ op ∈ ops, op.1 ≤ t1) →
      ((h.Put t0 key value).run ops).Get t1 key = some value) := by
  have he : (h.Put t0 key value).entries key = some ⟨value, t0 + h.ttl⟩ := by
    simp [HashStorage.Put]
  obtain ⟨h1, h2⟩ := run_entry (h.Put t0 key value) ops key _ hw he
  constructor
  · intro hle
    unfold HashStorage.Get
    rcases h1 with h1 | h1
    · rw [h1]
      simp only
      rw [if_neg (not_lt.2 hle)]
    · rw [h1]
  · intro hlt ht
    unfold HashStorage.Get
    rw [h2 (fun op hop => lt_of_le_of_lt (ht op hop) hlt)]
    simp only
    rw [if_pos hlt]

/-- The hash storage `Start` leaves: untouched when the localizer fails, a new
empty store with a TTL of 20 minutes otherwise. -/
theorem Start_store {V : Type} (a : Arch) (env : Env) (w : World V) :
    (env.InitLocalizer ≠ none →
      (Start a env w).world.hashStorage = w.hashStorage ∧
      (Start a env w).world.heap = w.heap) ∧
    (env.InitLocalizer = none →
      (Start a env w).world.hashStorage = some w.heap.length ∧
      (Start a env w).world.heap =
        w.heap ++ [{ ttl := 20 * Minute, entries := fun _ => none }]) := by
  constructor
  · intro h
    cases hl : env.InitLocalizer with
    | none => exact absurd hl h
    | some e => simp [Start, hl]
  · intro hl
    have hw : ∀ x : World V × List LogEntry, x = SetHostname env
        (w.newHashStorage (20 * Minute)) →
        x.1.hashStorage = some w.heap.length ∧
        x.1.heap = w.heap ++ [{ ttl := 20 * Minute, entries := fun _ => none }] := by
      intro x hx
      subst hx
      rcases hh : env.Hostname with ⟨host, e⟩
      cases e <;> simp [SetHostname, hh, World.newHashStorage, NewHashStorage_twenty]
    obtain ⟨hw1, hw2⟩ := hw _ rfl
    simp only [Start, hl]
    split_ifs <;> first
      | exact ⟨hw1, hw2⟩
      | (split <;> exact ⟨hw1, hw2⟩)

/-- C6, as stated, fails: after a first `Start`, an entry put into the store
of `GetHashStorage` is found there, but a second `Start` makes
`GetHashStorage` return another store, in which the entry is not found. -/
theorem second_Start_replaces_store :
    GetHashStorage (Start .bits64 envOk (World.init : World String)).world = some 0 ∧
    ((Start .bits64 envOk (World.init : World String)).world.storePut 0 0
      (bytes "abc123") "ctx").storeGet 0 Second (bytes "abc123") = some "ctx" ∧
    GetHashStorage (Start .bits64 envOk
      ((Start .bits64 envOk (World.init : World String)).world.storePut 0 0
        (bytes "abc123") "ctx")).world = some 1 ∧
    (Start .bits64 envOk
      ((Start .bits64 envOk (World.init : World String)).world.storePut 0 0
        (bytes "abc123") "ctx")).world.storeGet 1 Second (bytes "abc123") = none := by
  have h1 := (Start_store .bits64 envOk (World.init : World String)).2 rfl
  have h2 := (Start_store .bits64 envOk
    ((Start .bits64 envOk (World.init : World String)).world.storePut 0 0
      (bytes "abc123") "ctx")).2 rfl
  have hp : ((Start .bits64 envOk (World.init : World String)).world.storePut 0 0
      (bytes "abc123") "ctx").heap =
      [({ ttl := 20 * Minute, entries := fun _ => none } : HashStorage String).Put 0
        (bytes "abc123") "ctx"] := by
    have h1b : (Start .bits64 envOk (World.init : World String)).world.heap =
        [{ ttl := 20 * Minute, entries := fun _ => none }] := by
      simpa [World.init] using h1.2
    simp [World.storePut, h1b]
  refine ⟨?_, ?_, ?_, ?_⟩
  · rw [GetHashStorage, h1.1]; rfl
  · simp only [World.storeGet, hp]
    norm_num [HashStorage.Get, HashStorage.Put, Second, Minute]
  · rw [GetHashStorage, h2.1, hp]; rfl
  · simp only [World.storeGet, h2.2, hp]
    simp [HashStorage.Get]

/-- C6, amended: `Stop`, and a `Start` whose localizer fails to initialise,
leave `GetHashStorage` and every store with its entries as they were; every
`Start` that initialises the localizer keeps the stores created before, with
their entries, but makes `GetHashStorage` return a newly created store, empty
and with a TTL of 20 minutes. -/
theorem GetHashStorage_after_call {V : Type} (a : Arch) (env : Env) (w : World V) :
    (GetHashStorage (Stop w).world = GetHashStorage w ∧ (Stop w).world.heap = w.heap) ∧
    (env.InitLocalizer ≠ none →
      GetHashStorage (Start a env w).world = GetHashStorage w ∧
      (Start a env w).world.heap = w.heap) ∧
    (env.InitLocalizer = none →
      GetHashStorage (Start a env w).world = some w.heap.length ∧
      (Start a env w).world.heap =
        w.heap ++ [{ ttl := 20 * Minute, entries := fun _ => none }] ∧
      ∀ (now : ℚ) (key : GoString),
        (Start a env w).world.storeGet w.heap.length now key = none) := by
  refine ⟨?_, (Start_store a env w).1, ?_⟩
  · unfold Stop GetHashStorage
    split
    · exact ⟨rfl, rfl⟩
    · split <;> exact ⟨rfl, rfl⟩
  · intro hl
    obtain ⟨h1, h2⟩ := (Start_store a env w).2 hl
    refine ⟨h1, h2, ?_⟩
    intro now key
    simp [World.storeGet, h2, HashStorage.Get]

/-- C7: `Start` with a working localizer makes `GetHashStorage` point to a
store `h0` with a TTL of 20 minutes such that, after any operations on `h0`, a
`Put(k, v)` at `t0` and then operations up to time `t1` none of which is a
`Put` or `Delete` on `k`, `Get(k)` at `t1` returns `(v, true)` if
`t1 < t0 + 20min` and found `false` if `t1 >= t0 + 20min`, whatever sweeps
have run. -/
theorem Get_after_Put_in_Start_store {V : Type} (a : Arch) (env : Env) (w : World V)
    (hloc : env.InitLocalizer = none) :
    ∃ h0 : HashStorage V,
      GetHashStorage (Start a env w).world = some w.heap.length ∧
      (Start a env w).world.heap[w.heap.length]? = some h0 ∧
      h0.ttl = 20 * Minute ∧
      ∀ (pre post : List (ℚ × StoreOp V)) (k : GoString) (v : V) (t0 t1 : ℚ),
        (∀ op ∈ post, op.2.writes k = false ∧ op.1 ≤ t1) →
        (t1 < t0 + 20 * Minute →
          (((h0.run pre).Put t0 k v).run post).Get t1 k = some v) ∧
        (t0 + 20 * Minute ≤ t1 →
          (((h0.run pre).Put t0 k v).run post).Get t1 k = none) := by
  obtain ⟨h1, h2⟩ := (Start_store a env w).2 hloc
  refine ⟨{ ttl := 20 * Minute, entries := fun _ => none }, h1, by simp [h2], rfl, ?_⟩
  intro pre post k v t0 t1 hpost
  have httl : ((({ ttl := 20 * Minute, entries := fun _ => none } : HashStorage V).run pre)).ttl
      = 20 * Minute := run_ttl _ pre
  obtain ⟨g1, g2⟩ := get_after_put
    (({ ttl := 20 * Minute, entries := fun _ => none } : HashStorage V).run pre) post k v t0 t1
    (fun op hop => (hpost op hop).1)
  rw [httl] at g1 g2
  exact ⟨fun hlt => g2 hlt (fun op hop => (hpost op hop).2), g1⟩

/-- C7 on the scenario of the spec: a `Put` at time 0 into the store of the
first `Start` is found at 19m59s, and not found at 20m and at 20m1s, also
after a sweep at 10m. -/
theorem Get_after_Put_in_Start_store_witness :
    envOk.InitLocalizer = none ∧
    ∃ h0 : HashStorage String,
      (Start .bits64 envOk (World.init : World String)).world.heap[0]? = some h0 ∧
      (h0.Put 0 (bytes "abc123") "ctx").Get (19 * Minute + 59 * Second) (bytes "abc123") =
        some "ctx" ∧
      (((h0.Put 0 (bytes "abc123") "ctx").Sweep (10 * Minute)).Get (19 * Minute + 59 * Second)
        (bytes "abc123") = some "ctx") ∧
      (h0.Put 0 (bytes "abc123") "ctx").Get (20 * Minute) (bytes "abc123") = none ∧
      (h0.Put 0 (bytes "abc123") "ctx").Get (20 * Minute + 1 * Second) (bytes "abc123") =
        none := by
  refine ⟨rfl, ?_⟩
  obtain ⟨h0, _, h2, _, h4⟩ :=
    Get_after_Put_in_Start_store .bits64 envOk (World.init : World String) rfl
  refine ⟨h0, h2, ?_, ?_, ?_, ?_⟩
  · exact (h4 [] [] (bytes "abc123") "ctx" 0 (19 * Minute + 59 * Second)
      (by simp)).1 (by norm_num [Minute, Second])
  · exact (h4 [] [(10 * Minute, .sweep)] (bytes "abc123") "ctx" 0 (19 * Minute + 59 * Second)
      (by simp [StoreOp.writes]; norm_num [Minute, Second])).1 (by norm_num [Minute, Second])
  · exact (h4 [] [] (bytes "abc123") "ctx" 0 (20 * Minute)
      (by simp)).2 (by norm_num [Minute, Second])
  · exact (h4 [] [] (bytes "abc123") "ctx" 0 (20 * Minute + 1 * Second)
      (by simp)).2 (by norm_num [Minute, Second])

/-- C8: in a store constructed with TTL `d`, after any earlier operations, a
`Put(k, v1)` at `t0`, any operations, a `Put(k, v2)` at `t0 + d/2` and then
operations that are no `Put` or `Delete` on `k`, the deadline of `k` is
`t0 + d/2 + d`, measured from the second `Put`: `Get(k)` at
`t0 + d/2 + 0.9*d` returns `(v2, true)` when the later operations took place by
then, and `Get(k)` at `t0 + d/2 + 1.1*d` returns found `false`. -/
theorem overwrite_resets_ttl {V : Type} (d : ℚ) (h0 : HashStorage V)
    (hnew : NewHashStorage d = some h0) (pre mid post : List (ℚ × StoreOp V))
    (k : GoString) (v1 v2 : V) (t0 : ℚ)
    (hpost : ∀ op ∈ post, op.2.writes k = false) :
    ((∀ op ∈ post, op.1 ≤ t0 + d / 2 + 9 / 10 * d) →
      ((((((h0.run pre).Put t0 k v1).run mid).Put (t0 + d / 2) k v2).run post).Get
        (t0 + d / 2 + 9 / 10 * d) k = some v2)) ∧
    ((((((h0.run pre).Put t0 k v1).run mid).Put (t0 + d / 2) k v2).run post).Get
      (t0 + d / 2 + 11 / 10 * d) k = none) ∧
    ((((h0.run pre).Put t0 k v1).Put (t0 + d / 2) k v2).entries k).map Entry.expiresAt =
      some (t0 + d / 2 + d) := by
  have hd : 0 < d ∧ h0.ttl = d := by
    unfold NewHashStorage at hnew
    split_ifs at hnew with hpos
    cases hnew
    exact ⟨hpos, rfl⟩
  obtain ⟨hpos, httl0⟩ := hd
  have httl : (((h0.run pre).Put t0 k v1).run mid).ttl = d := by
    rw [run_ttl]
    show (h0.run pre).ttl = d
    rw [run_ttl, httl0]
  obtain ⟨g1, g2⟩ := get_after_put (((h0.run pre).Put t0 k v1).run mid) post k v2
    (t0 + d / 2) (t0 + d / 2 + 9 / 10 * d) hpost
  obtain ⟨g3, _⟩ := get_after_put (((h0.run pre).Put t0 k v1).run mid) post k v2
    (t0 + d / 2) (t0 + d / 2 + 11 / 10 * d) hpost
  rw [httl] at g1 g2 g3
  refine ⟨?_, g3 (by linarith), ?_⟩
  · intro ht
    exact g2 (by linarith) ht
  · have : (h0.run pre).ttl = d := by rw [run_ttl, httl0]
    simp [HashStorage.Put, this]

/-- C8 at the TTL of 20 minutes, with no other operations. -/
theorem overwrite_resets_ttl_witness :
    (NewHashStorage (20 * Minute) : Option (HashStorage String)) =
      some { ttl := 20 * Minute, entries := fun _ => none } ∧
    (((({ ttl := 20 * Minute, entries := fun _ => none } : HashStorage String).Put 0
        (bytes "abc123") "v1").Put (0 + 20 * Minute / 2) (bytes "abc123") "v2").Get
      (0 + 20 * Minute / 2 + 9 / 10 * (20 * Minute)) (bytes "abc123") = some "v2") ∧
    (((({ ttl := 20 * Minute, entries := fun _ => none } : HashStorage String).Put 0
        (bytes "abc123") "v1").Put (0 + 20 * Minute / 2) (bytes "abc123") "v2").Get
      (0 + 20 * Minute / 2 + 11 / 10 * (20 * Minute)) (bytes "abc123") = none) :=
  ⟨NewHashStorage_twenty,
    (overwrite_resets_ttl (20 * Minute) _ NewHashStorage_twenty [] [] []
      (bytes "abc123") "v1" "v2" 0 (by simp)).1 (by simp),
    (overwrite_resets_ttl (20 * Minute) _ NewHashStorage_twenty [] [] []
      (bytes "abc123") "v1" "v2" 0 (by simp)).2.1⟩

/-! ## The receive loop -/

/-- The loop sends `replyOf u` for each update `u` it takes from the channel,
and it stops early exactly at the first update whose message has no chat or
whose `Send` fails. -/
theorem OnReceive_loop_spec (send : List MessageConfig → MessageConfig → Option Error)
    (updates : List Update) (sent : List MessageConfig) (n : Nat) :
    ∃ k, k ≤ updates.length ∧
      (OnReceive.loop send updates sent n).handled = n + k ∧
      (OnReceive.loop send updates sent n).sent =
        sent ++ (updates.take k).filterMap replyOf ∧
      ((OnReceive.loop send updates sent n).panicked = false → k = updates.length) ∧
      ((OnReceive.loop send updates sent n).panicked = true →
        ∃ j u m, k = j + 1 ∧ updates[j]? = some u ∧ u.Message = some m ∧
          (m.Chat = none ∨ ∃ c, m.Chat = some c ∧
            send (sent ++ (updates.take j).filterMap replyOf) (reply c.ID) ≠ none)) ∧
      (∀ i u m, i < k → ((OnReceive.loop send updates sent n).panicked = true → i + 1 < k) →
        updates[i]? = some u → u.Message = some m →
        ∃ c, m.Chat = some c ∧
          send (sent ++ (updates.take i).filterMap replyOf) (reply c.ID) = none) := by
  induction updates generalizing sent n with
  | nil => exact ⟨0, by simp [OnReceive.loop]⟩
  | cons u us ih =>
    cases hm : u.Message with
    | none =>
      have hr : replyOf u = none := by simp [replyOf, hm]
      obtain ⟨k, hk, h1, h2, h3, h4, h5⟩ := ih sent (n + 1)
      have hloop : OnReceive.loop send (u :: us) sent n = OnReceive.loop send us sent (n + 1) := by
        simp only [OnReceive.loop, hm]
      rw [hloop]
      refine ⟨k + 1, by simpa using hk, by omega, ?_, ?_, ?_, ?_⟩
      · rw [h2, List.take_succ_cons, List.filterMap_cons_none hr]
      · intro h; rw [h3 h]; rfl
      · intro h
        obtain ⟨j, u1, m1, e1, e2, e3, e4⟩ := h4 h
        refine ⟨j + 1, u1, m1, by omega, by simpa using e2, e3, ?_⟩
        rw [List.take_succ_cons, List.filterMap_cons_none hr]
        exact e4
      · intro i u1 m1 hi hp hu hm1
        cases i with
        | zero =>
          simp only [List.getElem?_cons_zero, Option.some.injEq] at hu
          subst hu
          rw [hm] at hm1
          cases hm1
        | succ i =>
          rw [List.take_succ_cons, List.filterMap_cons_none hr]
          exact h5 i u1 m1 (by omega) (fun h => by have := hp h; omega)
            (by simpa using hu) hm1
    | some m =>
      cases hc : m.Chat with
      | none =>
        have hr : replyOf u = none := by simp [replyOf, hm, hc]
        have hloop : OnReceive.loop send (u :: us) sent n = ⟨sent, n + 1, true⟩ := by
          simp only [OnReceive.loop, hm, hc]
        rw [hloop]
        refine ⟨1, by simp, rfl, ?_, by simp, ?_, ?_⟩
        · simp [List.filterMap_cons_none hr]
        · intro _
          exact ⟨0, u, m, rfl, by simp, hm, Or.inl hc⟩
        · intro i u1 m1 hi hp _ _
          have := hp rfl
          omega
      | some c =>
        have hr : replyOf u = some (reply c.ID) := by simp [replyOf, hm, hc]
        cases hs : send sent (reply c.ID) with
        | some e =>
          have hloop : OnReceive.loop send (u :: us) sent n =
              ⟨sent ++ [reply c.ID], n + 1, true⟩ := by
            simp only [OnReceive.loop, hm, hc, hs]
          rw [hloop]
          refine ⟨1, by simp, rfl, ?_, by simp, ?_, ?_⟩
          · simp [List.filterMap_cons_some hr]
          · intro _
            exact ⟨0, u, m, rfl, by simp, hm, Or.inr ⟨c, hc, by simp [hs]⟩⟩
          · intro i u1 m1 hi hp _ _
            have := hp rfl
            omega
        | none =>
          obtain ⟨k, hk, h1, h2, h3, h4, h5⟩ := ih (sent ++ [reply c.ID]) (n + 1)
          have hloop : OnReceive.loop send (u :: us) sent n =
              OnReceive.loop send us (sent ++ [reply c.ID]) (n + 1) := by
            simp only [OnReceive.loop, hm, hc, hs]
          rw [hloop]
          refine ⟨k + 1, by simpa using hk, by omega, ?_, ?_, ?_, ?_⟩
          · rw [h2, List.take_succ_cons, List.filterMap_cons_some hr]
            simp
          · intro h; rw [h3 h]; rfl
          · intro h
            obtain ⟨j, u1, m1, e1, e2, e3, e4⟩ := h4 h
            refine ⟨j + 1, u1, m1, by omega, by simpa using e2, e3, ?_⟩
            rw [List.take_succ_cons, List.filterMap_cons_some hr]
            simpa using e4
          · intro i u1 m1 hi hp hu hm1
            cases i with
            | zero =>
              simp only [List.getElem?_cons_zero, Option.some.injEq] at hu
              subst hu
              rw [hm] at hm1
              cases hm1
              exact ⟨c, hc, by simpa using hs⟩
            | succ i =>
              rw [List.take_succ_cons, List.filterMap_cons_some hr]
              have := h5 i u1 m1 (by omega) (fun h => by have := hp h; omega)
                (by simpa using hu) hm1
              simpa using this

/-- C1, as stated, fails on an update whose message has no chat: reading
`update.Message.Chat.ID` at line 144 panics, and nothing is sent although the
update carries a message. -/
theorem OnReceive_message_without_chat :
    OnReceive (fun _ _ => none)
      [{ UpdateID := 1,
         Message := some { MessageID := 7, From := none, Chat := none, Text := "hello" } }] =
      { sent := [], handled := 1, panicked := true } := by
  decide

/-- C1, amended: of the updates the loop of `OnReceive` takes from the channel,
each one that carries a message with a chat makes exactly one `bot.Send`, of
the message `reply` for the id of that chat, and each one without a message
makes none; `reply chatID` is addressed to `chatID`, has the text "Hi" and an
inline keyboard of one row with one web-app button, whatever the text and the
sender.  The loop takes every update unless it ends in a panic, which happens
exactly at the first update whose message has no chat (nothing is sent for it)
or whose `Send` returns an error; when every `Send` succeeds and every message
has a chat, every update is answered. -/
theorem OnReceive_replies (send : List MessageConfig → MessageConfig → Option Error)
    (updates : List Update) :
    (OnReceive send updates).handled ≤ updates.length ∧
    (OnReceive send updates).sent =
      (updates.take (OnReceive send updates).handled).filterMap replyOf ∧
    ((OnReceive send updates).panicked = false →
      (OnReceive send updates).handled = updates.length) ∧
    ((OnReceive send updates).panicked = true →
      ∃ j u m, (OnReceive send updates).handled = j + 1 ∧ updates[j]? = some u ∧
        u.Message = some m ∧
        (m.Chat = none ∨ ∃ c, m.Chat = some c ∧
          send ((updates.take j).filterMap replyOf) (reply c.ID) ≠ none)) ∧
    (∀ i u m, i < (OnReceive send updates).handled →
      ((OnReceive send updates).panicked = true → i + 1 < (OnReceive send updates).handled) →
      updates[i]? = some u → u.Message = some m →
      ∃ c, m.Chat = some c ∧ send ((updates.take i).filterMap replyOf) (reply c.ID) = none) ∧
    ((∀ hist msg, send hist msg = none) →
      (∀ u ∈ updates, ∀ m, u.Message = some m → m.Chat ≠ none) →
      (OnReceive send updates).panicked = false ∧
      (OnReceive send updates).handled = updates.length ∧
      (OnReceive send updates).sent = updates.filterMap replyOf) ∧
    (∀ u : Update, (u.Message = none → replyOf u = none) ∧
      ∀ m c, u.Message = some m → m.Chat = some c → replyOf u = some (reply c.ID)) ∧
    (∀ chatID : Int, reply chatID =
      { ChatID := chatID, ReplyToMessageID := 0, Text := "Hi", DisableWebPagePreview := false,
        ReplyMarkup := some { InlineKeyboard := [[
          { Text := "My WebApp", URL := none, CallbackData := none,
            WebApp := some { URL := "https://t9wzx5sr-3000.euw.devtunnels.ms/" } }]] } }) := by
  obtain ⟨k, hk, h1, h2, h3, h4, h5⟩ := OnReceive_loop_spec send updates [] 0
  unfold OnReceive
  simp only [Nat.zero_add, List.nil_append] at h1 h2 h4 h5
  rw [h1]
  have hnp : (∀ hist msg, send hist msg = none) →
      (∀ u ∈ updates, ∀ m, u.Message = some m → m.Chat ≠ none) →
      (OnReceive.loop send updates [] 0).panicked = false := by
    intro hsend hchat
    cases hp : (OnReceive.loop send updates [] 0).panicked with
    | false => rfl
    | true =>
      obtain ⟨j, u, m, _, e2, e3, e4⟩ := h4 hp
      rcases e4 with e4 | ⟨c, _, e4⟩
      · exact absurd e4 (hchat u (List.getElem?_mem e2) m e3)
      · exact absurd (hsend _ _) e4
  refine ⟨hk, h2, h3, h4, h5, ?_, ?_, ?_⟩
  · intro hsend hchat
    have hp := hnp hsend hchat
    have hk2 := h3 hp
    refine ⟨hp, hk2, ?_⟩
    rw [h2, hk2, List.take_length]
  · intro u
    constructor
    · intro h; simp [replyOf, h]
    · intro m c hm hc; simp [replyOf, hm, hc]
  · intro chatID
    rfl

/-! ## The proxy setting -/

/-- C9: `NewBot` makes the call `NewBotAPI(token)` whatever the proxy URL, and
`Start` returns the same error from the same `return` statement and leaves the
same state whatever reading the proxy setting yields (a URL or an error). -/
theorem proxy_ignored :
    (∀ (getMe : GoString → Option Error) (token p1 p2 : GoString),
      NewBot getMe token p1 = NewBotAPI getMe token ∧
      NewBot getMe token p1 = NewBot getMe token p2) ∧
    (∀ (V : Type) (a : Arch) (env : Env) (w : World V) (proxy1 proxy2 : GoString × Option Error),
      (Start a { env with GetTgBotProxy := proxy1 } w).err =
        (Start a { env with GetTgBotProxy := proxy2 } w).err ∧
      (Start a { env with GetTgBotProxy := proxy1 } w).world =
        (Start a { env with GetTgBotProxy := proxy2 } w).world ∧
      (Start a { env with GetTgBotProxy := proxy1 } w).line =
        (Start a { env with GetTgBotProxy := proxy2 } w).line) := by
  refine ⟨fun _ _ _ _ => ⟨rfl, rfl⟩, ?_⟩
  intro V a env w proxy1 proxy2
  simp only [Start, SetHostname, NewBot]
  cases env.InitLocalizer with
  | some e => exact ⟨rfl, rfl, rfl⟩
  | none =>
    simp only
    split_ifs <;> first
      | exact ⟨rfl, rfl, rfl⟩
      | (split <;> exact ⟨rfl, rfl, rfl⟩)

/-! ## An empty bot token -/

/-- C5: when the setting service answers the empty token with a nil error,
`Start` logs "Failed to get Telegram bot token:" and leaves through the
`return err` of line 66 with `err` nil: its caller gets no error. -/
theorem Start_empty_token_nil_error (a : Arch) :
    (Start a envNoToken (World.init : World String)).err = none ∧
    (Start a envNoToken (World.init : World String)).line = 66 ∧
    (Start a envNoToken (World.init : World String)).log =
      [⟨.Warning, "Failed to get Telegram bot token:", none⟩] ∧
    (Start a envNoToken (World.init : World String)).world.bot = none ∧
    IsRunning (Start a envNoToken (World.init : World String)).world = false := by
  refine ⟨rfl, rfl, rfl, rfl, rfl⟩

/-! ## The running flag -/

/-- The running flag and the count of receive loops after a `Start`: a `Start`
that completes bot creation (it returns from line 108) sets the flag and
launches a loop only when the flag was not set; any other `Start` leaves both
as they were. -/
theorem Start_isRunning {V : Type} (a : Arch) (env : Env) (w : World V) :
    ((Start a env w).line = 108 →
      IsRunning (Start a env w).world = true ∧
      (w.isRunning = true → (Start a env w).world.receivers = w.receivers) ∧
      (w.isRunning = false → (Start a env w).world.receivers = w.receivers + 1)) ∧
    ((Start a env w).line ≠ 108 →
      IsRunning (Start a env w).world = IsRunning w ∧
      (Start a env w).world.receivers = w.receivers) := by
  have hw : ∀ x : World V × List LogEntry, x = SetHostname env
      (w.newHashStorage (20 * Minute)) →
      x.1.isRunning = w.isRunning ∧ x.1.receivers = w.receivers := by
    intro x hx
    subst hx
    rcases hh : env.Hostname with ⟨host, e⟩
    cases e <;> simp [SetHostname, hh, World.newHashStorage]
  obtain ⟨hw1, hw2⟩ := hw _ rfl
  unfold IsRunning
  cases hl : env.InitLocalizer with
  | some e => simp [Start, hl]
  | none =>
    simp only [Start, hl]
    clear hw
    split_ifs <;> (try split) <;> simp_all

/-- A `Stop` that returns leaves the running flag false and `adminIds` empty
and launches nothing; `Stop` panics exactly when `bot` is nil or already
stopped, and then changes nothing. -/
theorem Stop_spec {V : Type} (w : World V) :
    (∀ w1 log, Stop w = .returned w1 log →
      IsRunning w1 = false ∧ w1.adminIds = [] ∧ w1.receivers = w.receivers) ∧
    ((∃ w1, Stop w = .panicked w1) ↔
      (w.bot = none ∨ ∃ b, w.bot = some b ∧ b.shutdownClosed = true)) ∧
    (∀ w1, Stop w = .panicked w1 → w1 = w) := by
  unfold Stop
  cases hb : w.bot with
  | none => simp
  | some b =>
    obtain ⟨tok, closed⟩ := b
    cases closed with
    | true => simp
    | false =>
      simp only [Bool.false_eq_true, if_false]
      refine ⟨?_, by simp, by simp⟩
      intro w1 log h
      simp only [StopResult.returned.injEq] at h
      rw [← h.1]
      exact ⟨rfl, rfl, rfl⟩

/-- C4: after a `Start` that created the bot and a second `Start` whose
`NewBotAPI` fails, `bot` is nil while `isRunning` is still true; `Stop` then
panics in `bot.StopReceivingUpdates()` before line 132, so `IsRunning` stays
true although no `Start` has completed bot creation since that `Stop`. -/
theorem Stop_panics_after_failed_restart :
    IsRunning (calls .bits64 (World.init : World String) [.start envOk]) = true ∧
    (calls .bits64 (World.init : World String) [.start envOk, .start envUnreachable]).bot = none ∧
    (Start .bits64 envUnreachable
      (calls .bits64 (World.init : World String) [.start envOk])).err ≠ none ∧
    Stop (calls .bits64 (World.init : World String) [.start envOk, .start envUnreachable]) =
      .panicked (calls .bits64 (World.init : World String) [.start envOk, .start envUnreachable]) ∧
    IsRunning (calls .bits64 (World.init : World String)
      [.start envOk, .start envUnreachable, .stop]) = true := by
  refine ⟨by decide, by decide, by decide, rfl, by decide⟩

end Tgbot
